import Mathlib

set_option autoImplicit false

/-!
Shallow embedding of `src/mach_dxc.cpp` (hexops/mach-dxcompiler): a C ABI
boundary layer over the DXC shader compiler.  Narrow (UTF-8) and wide
strings are modelled as `List Nat` of code units; heap blobs as records;
the external compiler and the C locale conversion routines as abstract
environment functions; allocation and callback activity as event traces.
-/

namespace MachDxc

/-- Narrow (multi-byte / UTF-8) string: list of byte values. -/
abbrev NStr := List Nat

/-- Wide (`wchar_t`) string: list of wide code units. -/
abbrev WStr := List Nat

/-- `CP_UTF8` code page constant passed to `CreateBlob`. -/
def CP_UTF8 : Nat := 65001

/-- `S_OK` HRESULT. -/
def S_OK : Int := 0

/-- `E_POINTER` HRESULT (0x80004003 as a signed 32-bit value). -/
def E_POINTER : Int := -2147467261

/-- `SUCCEEDED(hr)` is `hr >= 0` for HRESULTs. -/
def SUCCEEDED (hr : Int) : Prop := 0 ≤ hr

instance (hr : Int) : Decidable (SUCCEEDED hr) := by unfold SUCCEEDED; infer_instance

/-! ## String Bridge: `wcstombsAlloc` (mach_dxc.cpp lines 30-48)

The C function mallocs a buffer, calls `std::wcstombs`, and on conversion
error (`(size_t)-1`) frees the buffer and returns `nullptr`; on success it
reallocs the buffer to the exact converted size plus terminator.  The
locale-dependent `wcstombs` conversion itself is the environment parameter
`conv` (`none` models the `(size_t)-1` error return).  We return the
resulting narrow string (`none` = `nullptr`) together with the allocation
events the call performed. -/

/-- Heap-allocation events performed by `wcstombsAlloc`. -/
inductive AllocEv where
  | mallocBuf
  | freeBuf
  | reallocBuf
deriving DecidableEq, Repr

/-- Embedding of `wcstombsAlloc`: branch on the `wcstombs` outcome exactly as
the C code branches on `size == (size_t)(-1)`. -/
def wcstombsAlloc (conv : WStr → Option NStr) (inval : WStr) :
    Option NStr × List AllocEv :=
  match conv inval with
  | none => (none, [AllocEv.mallocBuf, AllocEv.freeBuf])
  | some s => (some s, [AllocEv.mallocBuf, AllocEv.reallocBuf])

/-! ## Include Bridge: `MachDxcIncludeHandler::LoadSource` (lines 74-99) -/

/-- `MachDxcIncludeResult`: the structure the caller's resolution callback
returns.  `header_data = none` models a null content pointer. -/
structure MachDxcIncludeResult where
  header_data : Option (List Nat)
  header_length : Nat
deriving DecidableEq, Repr

/-- `MachDxcIncludeCallbacks`: the caller-supplied callback pair.  The
resolution function pointer is modelled with its context already applied
(`none` = null pointer); for the release callback only its null-ness is
observable in the embedding (its invocations are recorded in the trace). -/
structure MachDxcIncludeCallbacks where
  include_func : Option (NStr → Option MachDxcIncludeResult)
  free_func : Bool

/-- A native `IDxcBlobEncoding` produced by `IDxcUtils::CreateBlob`. -/
structure Blob where
  data : List Nat
  len : Nat
  encoding : Nat
deriving DecidableEq, Repr

/-- Environment of one `LoadSource` call: the locale conversion used by
`wcstombsAlloc` and the success predicate of the native `CreateBlob`. -/
structure IncludeEnv where
  conv : WStr → Option NStr
  blobOk : List Nat → Nat → Bool

/-- Observable events of one `LoadSource` call. -/
inductive LSEvent where
  | includeCall (filename : NStr)
  | createBlobCall (text : List Nat) (len : Nat) (cp : Nat)
  | freeCall (arg : Option MachDxcIncludeResult)

/-- Outcome of one `LoadSource` call: the returned HRESULT, the value stored
through `ppIncludeSource` (`none` = the out-parameter was left unassigned),
and the event trace. -/
structure LSOutcome where
  hr : Int
  assigned : Option Blob
  events : List LSEvent

/-- Line 78-81: the narrow filename handed to the resolution callback —
the `wcstombsAlloc` result, with `strdup(u8"")` substituted for `nullptr`. -/
def lsFilenameUtf8 (env : IncludeEnv) (filename : WStr) : NStr :=
  ((wcstombsAlloc env.conv filename).1).getD []

/-- Line 87: `include_text`, the text pointer handed to `CreateBlob` —
the result's `header_data` unless the result or its data pointer is null,
in which case the empty string `u8""`. -/
def lsText : Option MachDxcIncludeResult → List Nat
  | some r => r.header_data.getD []
  | none => []

/-- Line 88: `include_len`, the length handed to `CreateBlob` — the
result's `header_length` unless the result itself is null. -/
def lsLen : Option MachDxcIncludeResult → Nat
  | some r => r.header_length
  | none => 0

/-- Embedding of `MachDxcIncludeHandler::LoadSource`.  Mirrors lines 74-99:
null-pointer check on both callbacks, `wcstombsAlloc` with empty-string
substitution, resolution callback, `free` of the narrow filename,
content/length selection, `CreateBlob` with `CP_UTF8`, conditional
assignment of the out-parameter, release callback, `return S_OK`. -/
def LoadSource (env : IncludeEnv) (cb : MachDxcIncludeCallbacks)
    (filename : WStr) : LSOutcome :=
  match cb.include_func, cb.free_func with
  | some ifn, true =>
    let filename_utf8 : NStr := lsFilenameUtf8 env filename
    let include_result := ifn filename_utf8
    let include_text : List Nat := lsText include_result
    let include_len : Nat := lsLen include_result
    { hr := S_OK
      assigned :=
        if env.blobOk include_text include_len then
          some ⟨include_text, include_len, CP_UTF8⟩
        else none
      events := [LSEvent.includeCall filename_utf8,
                 LSEvent.createBlobCall include_text include_len CP_UTF8,
                 LSEvent.freeCall include_result] }
  | _, _ => { hr := E_POINTER, assigned := none, events := [] }

/-- Recognizer for release-callback events, used to count them. -/
def LSEvent.isFree : LSEvent → Bool
  | LSEvent.freeCall _ => true
  | _ => false

/-! ## Argument Marshaler (mach_dxc.cpp lines 144-156)

The loop converts each narrow argument into a shared 4096-byte scratch
buffer of `wchar_t` with `std::mbstowcs`, records the cursor as the i-th
wide-string pointer, and advances the cursor past the written characters
and the terminator.  `mbstowcs dst src avail` writes the full converted
string plus a terminator and returns its length when it fits (< avail),
writes `avail` unterminated units and returns `avail` otherwise, and
returns `(size_t)-1` on an invalid multibyte sequence (modelled by
`conv a = none`; `cursor += written + 1` then wraps to `cursor + 0`). -/

/-- State of the marshaling loop: the scratch-buffer contents written so
far, the write cursor (in `wchar_t` units), and the pointer array (cursor
offsets). -/
structure MarshalState where
  buf : List Nat
  cursor : Nat
  ptrs : List Nat
deriving DecidableEq, Repr

/-- One iteration of the loop body (lines 151-156) for argument `a`, with
scratch capacity `cap` wide characters. -/
def marshalStep (conv : NStr → Option WStr) (cap : Nat) (st : MarshalState)
    (a : NStr) : MarshalState :=
  let available := cap - st.cursor
  match conv a with
  | some w =>
    if w.length < available then
      { buf := st.buf ++ w ++ [0]
        cursor := st.cursor + w.length + 1
        ptrs := st.ptrs ++ [st.cursor] }
    else
      { buf := st.buf ++ w.take available
        cursor := st.cursor + available + 1
        ptrs := st.ptrs ++ [st.cursor] }
  | none =>
      { st with ptrs := st.ptrs ++ [st.cursor] }

/-- The whole marshaling loop over the argument list, starting from an empty
scratch buffer and empty pointer array. -/
def marshalArgs (conv : NStr → Option WStr) (cap : Nat) (args : List NStr) :
    MarshalState :=
  args.foldl (marshalStep conv cap) ⟨[], 0, []⟩

/-- Wide size in `wchar_t` units (converted length plus one terminator per
argument) that the argument list occupies in the scratch buffer. -/
def argsWideSize (conv : NStr → Option WStr) (args : List NStr) : Nat :=
  (args.map (fun a => ((conv a).getD []).length + 1)).sum

/-! ## `machDxcCompile` (lines 128-179)

The function body is straight-line: create the source blob, malloc the
pointer array and the 4096-byte scratch buffer, run the marshaling loop,
heap-allocate an include handler iff `options->include_callbacks` is
non-null, invoke the native `Compile` once, delete the handler,
`assert(SUCCEEDED(hr))` (fatal when the native call failed), free both
allocations, and return the detached result.  The native compiler is the
environment: `hr` and `res` are the HRESULT and the populated result
object of the single native call. -/

/-- The contents of a native `IDxcResult`: its `DXC_OUT_ERRORS` blob text and
its `DXC_OUT_OBJECT` blob bytes (`none` = the output blob is absent). -/
structure DxcResult where
  errors : Option (List Nat)
  object : Option (List Nat)
deriving DecidableEq, Repr

/-- `MachDxcCompileOptions` as consumed by `machDxcCompile`. -/
structure MachDxcCompileOptions where
  code : List Nat
  code_len : Nat
  args : List NStr
  include_callbacks : Option MachDxcIncludeCallbacks

/-- Environment of one `machDxcCompile` call: the `mbstowcs` conversion, the
platform `sizeof(wchar_t)`, and the native `Compile` outcome. -/
structure CompileEnv where
  mbConv : NStr → Option WStr
  wcharSize : Nat
  hr : Int
  res : Option DxcResult

/-- Observable events of one `machDxcCompile` call. -/
inductive CEvent where
  | createSourceBlobCall (code : List Nat) (len : Nat) (cp : Nat)
  | newHandler
  | nativeCompileCall (numArgs : Nat) (handlerPresent : Bool)
  | deleteHandler
  | freeArgsArray
  | freeScratchBuf
  | abortEv
deriving DecidableEq, Repr

/-- Embedding of `machDxcCompile`: the event trace and the returned handle
(`none` models both the aborted execution and a null `Detach`). -/
def machDxcCompile (env : CompileEnv) (opts : MachDxcCompileOptions) :
    List CEvent × Option DxcResult :=
  let st := marshalArgs env.mbConv (4096 / env.wcharSize) opts.args
  let hasHandler := opts.include_callbacks.isSome
  let preEvents :=
    [CEvent.createSourceBlobCall opts.code opts.code_len CP_UTF8] ++
    (if hasHandler then [CEvent.newHandler] else []) ++
    [CEvent.nativeCompileCall st.ptrs.length hasHandler] ++
    (if hasHandler then [CEvent.deleteHandler] else [])
  if 0 ≤ env.hr then
    (preEvents ++ [CEvent.freeArgsArray, CEvent.freeScratchBuf], env.res)
  else
    (preEvents ++ [CEvent.abortEv], none)

/-! ## Result accessors (lines 181-199) -/

/-- Embedding of `machDxcCompileResultGetError` (lines 181-189): return the
errors blob iff it is present with `GetStringLength() > 0`, else null. -/
def machDxcCompileResultGetError (r : DxcResult) : Option (List Nat) :=
  match r.errors with
  | some e => if 0 < e.length then some e else none
  | none => none

/-- Embedding of `machDxcCompileResultGetObject` (lines 191-199): return the
object blob iff it is present with `GetBufferSize() > 0`, else null. -/
def machDxcCompileResultGetObject (r : DxcResult) : Option (List Nat) :=
  match r.object with
  | some o => if 0 < o.length then some o else none
  | none => none

/-! ## Reference-counted view of the extraction functions (lines 181-204)

`GetOutput` hands back an `AddRef`-ed interface pointer which `Detach`
transfers to the returned opaque handle, so every successful extraction
owns its own incremented reference on the underlying blob.  `Release` on
the result object drops the result's own references to its output blobs
when its count reaches zero (standard COM destructor behavior of
`IDxcResult`).  The heap maps object ids to reference counts and to the
immutable blob payloads. -/

/-- COM heap: per-object reference counts and immutable payload bytes. -/
structure ComHeap where
  rc : Nat → Nat
  payload : Nat → List Nat

/-- `AddRef` on object `i`. -/
def ComHeap.addRef (h : ComHeap) (i : Nat) : ComHeap :=
  { h with rc := fun j => if j = i then h.rc j + 1 else h.rc j }

/-- `Release` on object `i`. -/
def ComHeap.release (h : ComHeap) (i : Nat) : ComHeap :=
  { h with rc := fun j => if j = i then h.rc j - 1 else h.rc j }

/-- An object is alive while its reference count is positive. -/
def ComHeap.alive (h : ComHeap) (i : Nat) : Prop := 0 < h.rc i

instance (h : ComHeap) (i : Nat) : Decidable (h.alive i) := by
  unfold ComHeap.alive; infer_instance

/-- A live `IDxcResult` object: its own id and the ids and contents of its
`DXC_OUT_ERRORS` / `DXC_OUT_OBJECT` blobs (`none` = output absent). -/
structure ResultObj where
  resId : Nat
  errBlob : Option (Nat × List Nat)
  objBlob : Option (Nat × List Nat)

/-- `machDxcCompileResultGetError`, refcount view: on success the returned
handle is the blob id carrying its own fresh reference; when the blob is
absent or empty the temporary reference is released again (net no-op). -/
def machDxcCompileResultGetErrorRc (ro : ResultObj) (h : ComHeap) :
    Option Nat × ComHeap :=
  match ro.errBlob with
  | some (i, e) => if 0 < e.length then (some i, h.addRef i) else (none, h)
  | none => (none, h)

/-- `machDxcCompileResultGetObject`, refcount view. -/
def machDxcCompileResultGetObjectRc (ro : ResultObj) (h : ComHeap) :
    Option Nat × ComHeap :=
  match ro.objBlob with
  | some (i, o) => if 0 < o.length then (some i, h.addRef i) else (none, h)
  | none => (none, h)

/-- Release of one of the result's internal blob references, performed by
the result object's destructor. -/
def releaseInner (h : ComHeap) : Option (Nat × List Nat) → ComHeap
  | some (i, _) => h.release i
  | none => h

/-- `machDxcCompileResultDeinit` (lines 201-204), refcount view: release the
caller's reference on the result; if that was the last one the result's
destructor also drops its internal references to the output blobs. -/
def machDxcCompileResultDeinitRc (ro : ResultObj) (h : ComHeap) : ComHeap :=
  let h1 := h.release ro.resId
  if h1.rc ro.resId = 0 then
    releaseInner (releaseInner h1 ro.errBlob) ro.objBlob
  else h1

/-- `machDxcCompileErrorDeinit` (lines 237-240), refcount view. -/
def machDxcCompileErrorDeinitRc (i : Nat) (h : ComHeap) : ComHeap :=
  h.release i

/-- `machDxcCompileObjectDeinit` (lines 219-222), refcount view. -/
def machDxcCompileObjectDeinitRc (i : Nat) (h : ComHeap) : ComHeap :=
  h.release i

/-- `machDxcCompileErrorGetString` (lines 227-230): read the blob payload
through the handle. -/
def machDxcCompileErrorGetStringRc (h : ComHeap) (i : Nat) : List Nat :=
  h.payload i

/-- `machDxcCompileObjectGetBytes` (lines 209-212): read the blob payload
through the handle. -/
def machDxcCompileObjectGetBytesRc (h : ComHeap) (i : Nat) : List Nat :=
  h.payload i

/-! ## Auxiliary predicates and layout functions used by the theorems -/

/-- A fatally failed compilation, as the external native compiler presents
it on the `IDxcResult`: the diagnostics blob is present and nonempty, and
the object output is absent or empty. -/
def fatalFailure (r : DxcResult) : Bool :=
  (match r.errors with
   | some e => decide (0 < e.length)
   | none => false) &&
  (match r.object with
   | some o => o.isEmpty
   | none => true)

/-- Region starts of the marshaled arguments: argument `i` begins at the
cursor position, and the cursor then advances by converted length plus one
terminator. -/
def layout (c : Nat) : List WStr → List (Nat × WStr)
  | [] => []
  | w :: ws => (c, w) :: layout (c + w.length + 1) ws

/-- The scratch-buffer image of a converted argument list: each wide string
followed by its terminator. -/
def flatWide (ws : List WStr) : List Nat :=
  (ws.map (fun w => w ++ [0])).flatten

/-! # Theorems -/

/-- **C9.** Every non-null handle returned by `machDxcCompileResultGetError`
has string length strictly greater than zero, and every non-null handle
returned by `machDxcCompileResultGetObject` has byte length strictly greater
than zero; a present-but-empty error text or a zero-size object blob yields
a null handle from the extraction function. -/
theorem getError_getObject_positive_length (r : DxcResult) :
    (∀ e, machDxcCompileResultGetError r = some e → 0 < e.length) ∧
    (∀ o, machDxcCompileResultGetObject r = some o → 0 < o.length) ∧
    (r.errors = some [] → machDxcCompileResultGetError r = none) ∧
    (r.object = some [] → machDxcCompileResultGetObject r = none) := by
  obtain ⟨errs, obj⟩ := r
  refine ⟨fun e he => ?_, fun o ho => ?_, fun he => ?_, fun ho => ?_⟩
  · cases errs with
    | none => simp [machDxcCompileResultGetError] at he
    | some e0 =>
      by_cases hp : 0 < e0.length
      · simp [machDxcCompileResultGetError, hp] at he
        exact he ▸ hp
      · simp [machDxcCompileResultGetError, hp] at he
  · cases obj with
    | none => simp [machDxcCompileResultGetObject] at ho
    | some o0 =>
      by_cases hp : 0 < o0.length
      · simp [machDxcCompileResultGetObject, hp] at ho
        exact ho ▸ hp
      · simp [machDxcCompileResultGetObject, hp] at ho
  · simp only [DxcResult.errors] at he
    subst he
    simp [machDxcCompileResultGetError]
  · simp only [DxcResult.object] at ho
    subst ho
    simp [machDxcCompileResultGetObject]

/-- Witness for C9 at a concrete result with error text `"A"` and an empty
object blob. -/
theorem getError_getObject_positive_length_w :
    0 < ([65] : List Nat).length ∧
    machDxcCompileResultGetObject ⟨some [65], some []⟩ = none :=
  ⟨(getError_getObject_positive_length ⟨some [65], some []⟩).1 [65] rfl,
   (getError_getObject_positive_length ⟨some [65], some []⟩).2.2.2 rfl⟩

/-- **C2.** When both callback function pointers are non-null, every
`LoadSource` call invokes the caller's release callback exactly once, with
exactly the value the resolution callback returned (also when that value is
null, and also when the filename conversion failed, both being instances of
the quantification over `env` and `ifn`). -/
theorem loadSource_free_exactly_once (env : IncludeEnv)
    (ifn : NStr → Option MachDxcIncludeResult) (filename : WStr) :
    (LoadSource env ⟨some ifn, true⟩ filename).events.filter LSEvent.isFree =
      [LSEvent.freeCall (ifn (lsFilenameUtf8 env filename))] := by
  rfl

/-- **C6.** When the wide-to-narrow conversion reports an encoding error,
`wcstombsAlloc` frees its buffer and returns null; `LoadSource` then
substitutes the empty string, so the resolution callback receives a valid
(empty) narrow filename, and the call still returns `S_OK` rather than a
distinct error code. -/
theorem wcstombs_failure_handling (env : IncludeEnv)
    (ifn : NStr → Option MachDxcIncludeResult) (filename : WStr)
    (herr : env.conv filename = none) :
    wcstombsAlloc env.conv filename = (none, [AllocEv.mallocBuf, AllocEv.freeBuf]) ∧
    lsFilenameUtf8 env filename = [] ∧
    LSEvent.includeCall [] ∈ (LoadSource env ⟨some ifn, true⟩ filename).events ∧
    (LoadSource env ⟨some ifn, true⟩ filename).hr = S_OK := by
  have h1 : wcstombsAlloc env.conv filename =
      (none, [AllocEv.mallocBuf, AllocEv.freeBuf]) := by
    unfold wcstombsAlloc
    rw [herr]
  have h2 : lsFilenameUtf8 env filename = [] := by
    unfold lsFilenameUtf8
    rw [h1]
    rfl
  refine ⟨h1, h2, ?_, rfl⟩
  simp [LoadSource, h2]

/-- Witness for C6 at a conversion environment that always fails. -/
theorem wcstombs_failure_handling_w :
    lsFilenameUtf8 ⟨fun _ => none, fun _ _ => true⟩ [] = [] :=
  (wcstombs_failure_handling ⟨fun _ => none, fun _ _ => true⟩
    (fun _ => none) [] rfl).2.1

/-- **C10.** With both callback pointers non-null, `LoadSource` returns
`S_OK` unconditionally; when the native blob creation fails, the
out-parameter `ppIncludeSource` is left unassigned. -/
theorem loadSource_sok_even_on_blob_failure (env : IncludeEnv)
    (ifn : NStr → Option MachDxcIncludeResult) (filename : WStr) :
    (LoadSource env ⟨some ifn, true⟩ filename).hr = S_OK ∧
    (env.blobOk (lsText (ifn (lsFilenameUtf8 env filename)))
        (lsLen (ifn (lsFilenameUtf8 env filename))) = false →
      (LoadSource env ⟨some ifn, true⟩ filename).assigned = none) := by
  refine ⟨rfl, fun hfail => ?_⟩
  simp [LoadSource, hfail]

/-- Witness for C10 at an environment whose `CreateBlob` always fails. -/
theorem loadSource_sok_even_on_blob_failure_w :
    (LoadSource ⟨fun _ => some [], fun _ _ => false⟩
      ⟨some (fun _ => none), true⟩ []).assigned = none :=
  (loadSource_sok_even_on_blob_failure ⟨fun _ => some [], fun _ _ => false⟩
    (fun _ => none) []).2 rfl

/-- **C5, counterexample.** A resolution callback that returns a non-null
result whose content pointer is null but whose `header_length` is 5 makes
`LoadSource` create a blob of length 5, not a zero-length one: the claim
that a null content pointer always yields zero-length content is false. -/
theorem loadSource_nullcontent_counterexample :
    LSEvent.createBlobCall [] 5 CP_UTF8 ∈
      (LoadSource ⟨fun _ => some [], fun _ _ => true⟩
        ⟨some (fun _ => some ⟨none, 5⟩), true⟩ []).events ∧
    (LoadSource ⟨fun _ => some [], fun _ _ => true⟩
        ⟨some (fun _ => some ⟨none, 5⟩), true⟩ []).assigned =
      some ⟨[], 5, CP_UTF8⟩ ∧
    (5 : Nat) ≠ 0 := by
  refine ⟨?_, rfl, by decide⟩
  simp [LoadSource, lsFilenameUtf8, wcstombsAlloc, lsText, lsLen]

/-- **C5, amended.** Every serviced `LoadSource` call creates exactly one
native blob, tagged `CP_UTF8`; its text is the result's content bytes, with
the empty string substituted when the result or its content pointer is
null; its length is 0 when the result is null and the caller-supplied
`header_length` otherwise — also when the content pointer is null. -/
theorem loadSource_blob_call (env : IncludeEnv)
    (ifn : NStr → Option MachDxcIncludeResult) (filename : WStr) :
    (LoadSource env ⟨some ifn, true⟩ filename).events =
      [LSEvent.includeCall (lsFilenameUtf8 env filename),
       LSEvent.createBlobCall (lsText (ifn (lsFilenameUtf8 env filename)))
         (lsLen (ifn (lsFilenameUtf8 env filename))) CP_UTF8,
       LSEvent.freeCall (ifn (lsFilenameUtf8 env filename))] ∧
    lsText none = [] ∧ lsLen none = 0 ∧
    (∀ n : Nat, lsText (some ⟨none, n⟩) = [] ∧ lsLen (some ⟨none, n⟩) = n) ∧
    (∀ d : List Nat, ∀ n : Nat,
      lsText (some ⟨some d, n⟩) = d ∧ lsLen (some ⟨some d, n⟩) = n) :=
  ⟨rfl, rfl, rfl, fun _ => ⟨rfl, rfl⟩, fun _ _ => ⟨rfl, rfl⟩⟩

/-- **C7.** When the compile options carry no include-callbacks structure,
`machDxcCompile` constructs no handler and passes `handler = nullptr` to the
native `Compile`; when a callbacks structure is present but either function
pointer is null, every `LoadSource` call returns `E_POINTER` without
invoking either callback. -/
theorem include_handler_configuration (env : CompileEnv)
    (opts : MachDxcCompileOptions) (ienv : IncludeEnv)
    (cb : MachDxcIncludeCallbacks) (filename : WStr)
    (hnone : opts.include_callbacks = none)
    (hmal : cb.include_func = none ∨ cb.free_func = false) :
    (CEvent.newHandler ∉ (machDxcCompile env opts).1 ∧
     CEvent.nativeCompileCall
        (marshalArgs env.mbConv (4096 / env.wcharSize) opts.args).ptrs.length
        false ∈ (machDxcCompile env opts).1) ∧
    (LoadSource ienv cb filename).hr = E_POINTER ∧
    (LoadSource ienv cb filename).events = [] := by
  obtain ⟨incf, frf⟩ := cb
  refine ⟨?_, ?_⟩
  · by_cases h0 : 0 ≤ env.hr <;> simp [machDxcCompile, hnone, h0]
  · rcases hmal with hm | hm
    · simp only [MachDxcIncludeCallbacks.include_func] at hm
      subst hm
      cases frf <;> exact ⟨rfl, rfl⟩
    · simp only [MachDxcIncludeCallbacks.free_func] at hm
      subst hm
      cases incf <;> exact ⟨rfl, rfl⟩

/-- Witness for C7 at concrete options without callbacks and a callbacks
structure whose resolution pointer is null. -/
theorem include_handler_configuration_w :
    (LoadSource ⟨fun _ => some [], fun _ _ => true⟩ ⟨none, true⟩ []).hr =
      E_POINTER :=
  (include_handler_configuration ⟨fun _ => some [], 4, 0, none⟩ ⟨[], 0, [], none⟩
    ⟨fun _ => some [], fun _ _ => true⟩ ⟨none, true⟩ [] rfl (Or.inl rfl)).2.1

/-- **C8.** In every completed `machDxcCompile` execution — regardless of
the compilation outcome carried by the result, success or failure — the
pointer array and the scratch buffer are both freed exactly once, as the
final two actions, after the single native `Compile` call. -/
theorem compile_frees_after_native_call (env : CompileEnv)
    (opts : MachDxcCompileOptions)
    (hcomplete : CEvent.abortEv ∉ (machDxcCompile env opts).1) :
    ∃ evs, (machDxcCompile env opts).1 =
        evs ++ [CEvent.freeArgsArray, CEvent.freeScratchBuf] ∧
      CEvent.freeArgsArray ∉ evs ∧ CEvent.freeScratchBuf ∉ evs ∧
      CEvent.nativeCompileCall
        (marshalArgs env.mbConv (4096 / env.wcharSize) opts.args).ptrs.length
        opts.include_callbacks.isSome ∈ evs := by
  by_cases h0 : 0 ≤ env.hr
  · refine ⟨[CEvent.createSourceBlobCall opts.code opts.code_len CP_UTF8] ++
      (if opts.include_callbacks.isSome then [CEvent.newHandler] else []) ++
      [CEvent.nativeCompileCall
        (marshalArgs env.mbConv (4096 / env.wcharSize) opts.args).ptrs.length
        opts.include_callbacks.isSome] ++
      (if opts.include_callbacks.isSome then [CEvent.deleteHandler] else []),
      ?_, ?_, ?_, ?_⟩ <;>
      by_cases hh : opts.include_callbacks.isSome <;>
      simp [machDxcCompile, h0, hh]
  · exact absurd (by simp [machDxcCompile, h0]) hcomplete

/-- Witness for C8 at a concrete environment whose native call succeeds. -/
theorem compile_frees_after_native_call_w :
    ∃ evs, (machDxcCompile ⟨fun _ => some [], 4, 0, some ⟨none, some [1]⟩⟩
        ⟨[], 0, [], none⟩).1 =
        evs ++ [CEvent.freeArgsArray, CEvent.freeScratchBuf] ∧
      CEvent.freeArgsArray ∉ evs ∧ CEvent.freeScratchBuf ∉ evs ∧
      CEvent.nativeCompileCall
        (marshalArgs (fun _ => some []) (4096 / 4) []).ptrs.length false ∈ evs :=
  compile_frees_after_native_call ⟨fun _ => some [], 4, 0, some ⟨none, some [1]⟩⟩
    ⟨[], 0, [], none⟩ (by decide)

/-- **C1.** If the native `Compile` contract holds (a succeeded HRESULT
populates the out-parameter), every `machDxcCompile` invocation that
completes (does not abort on the `SUCCEEDED` assertion) returns a non-null
`CompileResult`; and on a fatally failed compilation the extracted error is
non-null while the extracted object is null — failure is never signaled by
a null `CompileResult`. -/
theorem compile_result_nonnull (env : CompileEnv) (opts : MachDxcCompileOptions)
    (hwf : SUCCEEDED env.hr → env.res.isSome = true)
    (hcomplete : CEvent.abortEv ∉ (machDxcCompile env opts).1) :
    (machDxcCompile env opts).2.isSome = true ∧
    (∀ r, (machDxcCompile env opts).2 = some r → fatalFailure r = true →
      (machDxcCompileResultGetError r).isSome = true ∧
      machDxcCompileResultGetObject r = none) := by
  have h0 : 0 ≤ env.hr := by
    by_contra h0
    exact hcomplete (by simp [machDxcCompile, h0])
  have hres : (machDxcCompile env opts).2 = env.res := by
    simp [machDxcCompile, h0]
  constructor
  · rw [hres]
    exact hwf h0
  · intro r _ hf
    obtain ⟨errs, obj⟩ := r
    cases errs with
    | none => simp [fatalFailure] at hf
    | some e =>
      cases obj with
      | none =>
        simp [fatalFailure] at hf
        exact ⟨by simp [machDxcCompileResultGetError, hf], rfl⟩
      | some o =>
        simp [fatalFailure, List.isEmpty_iff] at hf
        obtain ⟨h1, h2⟩ := hf
        subst h2
        exact ⟨by simp [machDxcCompileResultGetError, h1],
               by simp [machDxcCompileResultGetObject]⟩

/-- Witness for C1 at a concrete environment whose native call succeeds and
yields a fatally failed compilation result. -/
theorem compile_result_nonnull_w :
    (machDxcCompile ⟨fun _ => some [], 4, 0, some ⟨some [65], none⟩⟩
      ⟨[], 0, [], none⟩).2.isSome = true :=
  (compile_result_nonnull ⟨fun _ => some [], 4, 0, some ⟨some [65], none⟩⟩
    ⟨[], 0, [], none⟩ (fun _ => rfl) (by decide)).1

/-- **C4.** `machDxcCompileResultGetError` / `machDxcCompileResultGetObject`
may be called repeatedly on one `CompileResult`: each call returns a handle
to the same blob (identical content) wrapping its own incremented
reference, and `machDxcCompileResultDeinit` on the parent leaves the
extracted handles alive (reference count 2 here), with content readable and
each handle individually deinit-able down to zero. -/
theorem extraction_independence
    (h h1 h2 h3 h4 : ComHeap) (ro : ResultObj) (ei oi : Nat) (e o : List Nat)
    (e1 e2 o1 o2 : Option Nat)
    (herr : ro.errBlob = some (ei, e)) (hobj : ro.objBlob = some (oi, o))
    (hep : 0 < e.length) (hop : 0 < o.length)
    (hne1 : ei ≠ ro.resId) (hne2 : oi ≠ ro.resId) (hne3 : ei ≠ oi)
    (hres : h.rc ro.resId = 1) (hrei : h.rc ei = 1) (hroi : h.rc oi = 1)
    (hpe : h.payload ei = e) (hpo : h.payload oi = o)
    (hs1 : machDxcCompileResultGetErrorRc ro h = (e1, h1))
    (hs2 : machDxcCompileResultGetErrorRc ro h1 = (e2, h2))
    (hs3 : machDxcCompileResultGetObjectRc ro h2 = (o1, h3))
    (hs4 : machDxcCompileResultGetObjectRc ro h3 = (o2, h4)) :
    e1 = some ei ∧ e2 = some ei ∧ o1 = some oi ∧ o2 = some oi ∧
    (machDxcCompileResultDeinitRc ro h4).rc ei = 2 ∧
    (machDxcCompileResultDeinitRc ro h4).rc oi = 2 ∧
    (machDxcCompileResultDeinitRc ro h4).alive ei ∧
    (machDxcCompileResultDeinitRc ro h4).alive oi ∧
    machDxcCompileErrorGetStringRc (machDxcCompileResultDeinitRc ro h4) ei = e ∧
    machDxcCompileObjectGetBytesRc (machDxcCompileResultDeinitRc ro h4) oi = o ∧
    (machDxcCompileErrorDeinitRc ei (machDxcCompileResultDeinitRc ro h4)).rc ei = 1 ∧
    (machDxcCompileErrorDeinitRc ei (machDxcCompileErrorDeinitRc ei
      (machDxcCompileResultDeinitRc ro h4))).rc ei = 0 ∧
    (machDxcCompileObjectDeinitRc oi (machDxcCompileResultDeinitRc ro h4)).rc oi = 1 ∧
    (machDxcCompileObjectDeinitRc oi (machDxcCompileObjectDeinitRc oi
      (machDxcCompileResultDeinitRc ro h4))).rc oi = 0 := by
  have g1 : machDxcCompileResultGetErrorRc ro h = (some ei, h.addRef ei) := by
    unfold machDxcCompileResultGetErrorRc
    rw [herr]
    simp [hep]
  rw [g1] at hs1
  obtain ⟨he1, hh1⟩ := Prod.mk.injEq .. ▸ hs1
  subst hh1
  have g2 : machDxcCompileResultGetErrorRc ro (h.addRef ei) =
      (some ei, (h.addRef ei).addRef ei) := by
    unfold machDxcCompileResultGetErrorRc
    rw [herr]
    simp [hep]
  rw [g2] at hs2
  obtain ⟨he2, hh2⟩ := Prod.mk.injEq .. ▸ hs2
  subst hh2
  have g3 : machDxcCompileResultGetObjectRc ro ((h.addRef ei).addRef ei) =
      (some oi, ((h.addRef ei).addRef ei).addRef oi) := by
    unfold machDxcCompileResultGetObjectRc
    rw [hobj]
    simp [hop]
  rw [g3] at hs3
  obtain ⟨ho1, hh3⟩ := Prod.mk.injEq .. ▸ hs3
  subst hh3
  have g4 : machDxcCompileResultGetObjectRc ro (((h.addRef ei).addRef ei).addRef oi) =
      (some oi, (((h.addRef ei).addRef ei).addRef oi).addRef oi) := by
    unfold machDxcCompileResultGetObjectRc
    rw [hobj]
    simp [hop]
  rw [g4] at hs4
  obtain ⟨ho2, hh4⟩ := Prod.mk.injEq .. ▸ hs4
  subst hh4
  have hd : machDxcCompileResultDeinitRc ro
      ((((h.addRef ei).addRef ei).addRef oi).addRef oi) =
      (((((((h.addRef ei).addRef ei).addRef oi).addRef oi).release ro.resId).release
        ei).release oi) := by
    unfold machDxcCompileResultDeinitRc
    rw [herr, hobj]
    simp [ComHeap.release, ComHeap.addRef, Ne.symm hne1, Ne.symm hne2, hres,
      releaseInner]
  have hrcei : (machDxcCompileResultDeinitRc ro
      ((((h.addRef ei).addRef ei).addRef oi).addRef oi)).rc ei = 2 := by
    rw [hd]
    simp [ComHeap.release, ComHeap.addRef, hne1, hne3, hrei]
  have hrcoi : (machDxcCompileResultDeinitRc ro
      ((((h.addRef ei).addRef ei).addRef oi).addRef oi)).rc oi = 2 := by
    rw [hd]
    simp [ComHeap.release, ComHeap.addRef, hne2, Ne.symm hne3, hroi]
  refine ⟨he1.symm, he2.symm, ho1.symm, ho2.symm, hrcei, hrcoi, ?_, ?_, ?_, ?_,
    ?_, ?_, ?_, ?_⟩
  · unfold ComHeap.alive
    rw [hrcei]
    decide
  · unfold ComHeap.alive
    rw [hrcoi]
    decide
  · rw [hd]
    simp [machDxcCompileErrorGetStringRc, ComHeap.release, ComHeap.addRef, hpe]
  · rw [hd]
    simp [machDxcCompileObjectGetBytesRc, ComHeap.release, ComHeap.addRef, hpo]
  · unfold machDxcCompileErrorDeinitRc
    simp [ComHeap.release, hrcei]
  · unfold machDxcCompileErrorDeinitRc
    simp [ComHeap.release, hrcei]
  · unfold machDxcCompileObjectDeinitRc
    simp [ComHeap.release, hrcoi]
  · unfold machDxcCompileObjectDeinitRc
    simp [ComHeap.release, hrcoi]

/-- Witness for C4 at a concrete three-object heap (result id 0, error blob
id 1 with text `"A"`, object blob id 2 with bytes `[66]`). -/
theorem extraction_independence_w :
    (machDxcCompileResultDeinitRc ⟨0, some (1, [65]), some (2, [66])⟩
      (((((⟨fun i => if i ≤ 2 then 1 else 0,
            fun i => if i = 1 then [65] else [66]⟩ : ComHeap).addRef 1).addRef
            1).addRef 2).addRef 2)).rc 1 = 2 :=
  (extraction_independence
    ⟨fun i => if i ≤ 2 then 1 else 0, fun i => if i = 1 then [65] else [66]⟩
    _ _ _ _ ⟨0, some (1, [65]), some (2, [66])⟩ 1 2 [65] [66]
    (some 1) (some 1) (some 2) (some 2)
    rfl rfl (by decide) (by decide) (by decide) (by decide) (by decide)
    rfl rfl rfl rfl rfl rfl rfl rfl rfl).2.2.2.2.1

/-! ## Lemmas about the marshaling loop -/

theorem layout_length (ws : List WStr) : ∀ c, (layout c ws).length = ws.length := by
  induction ws with
  | nil => intro c; rfl
  | cons w ws ih => intro c; simp [layout, ih]

theorem layout_map_snd (ws : List WStr) : ∀ c, (layout c ws).map Prod.snd = ws := by
  induction ws with
  | nil => intro c; rfl
  | cons w ws ih => intro c; simp [layout, ih]

theorem flatWide_cons (w : WStr) (ws : List WStr) :
    flatWide (w :: ws) = (w ++ [0]) ++ flatWide ws := by
  simp [flatWide]

theorem getD_map {α β : Type _} (f : α → β) (l : List α) (d : α) :
    ∀ i, (l.map f).getD i (f d) = f (l.getD i d) := by
  induction l with
  | nil => intro i; rfl
  | cons x l ih =>
    intro i
    cases i with
    | zero => rfl
    | succ j => exact ih j

theorem getD_default_irrel {α : Type _} (l : List α) :
    ∀ (i : Nat) (d d' : α), i < l.length → l.getD i d = l.getD i d' := by
  induction l with
  | nil => intro i d d' h; simp at h
  | cons x l ih =>
    intro i d d' h
    cases i with
    | zero => rfl
    | succ j => simpa using ih j d d' (by simpa using h)

theorem getD_self_mem {α : Type _} (l : List α) (i : Nat) (d : α)
    (h : i < l.length) : l.getD i d ∈ l := by
  induction l generalizing i with
  | nil => simp at h
  | cons x l ih =>
    cases i with
    | zero => simp [List.getD]
    | succ j =>
      simp only [List.getD_cons_succ]
      exact List.mem_cons_of_mem x (ih j (by simpa using h))

theorem layout_getD_mem (ws : List WStr) (c i : Nat) (h : i < ws.length) :
    (layout c ws).getD i (0, []) ∈ layout c ws :=
  getD_self_mem _ i _ (by rw [layout_length]; exact h)

theorem layout_region (ws : List WStr) :
    ∀ (c : Nat) (head : List Nat), head.length = c →
      ∀ p w, (p, w) ∈ layout c ws →
        ((head ++ flatWide ws).drop p).take (w.length + 1) = w ++ [0] := by
  induction ws with
  | nil =>
    intro c head hc p w hm
    simp [layout] at hm
  | cons w0 ws ih =>
    intro c head hc p w hm
    rw [layout] at hm
    rcases List.mem_cons.mp hm with h | h
    · obtain ⟨hp, hw⟩ := Prod.mk.injEq .. ▸ h
      subst hp
      subst hw
      rw [flatWide_cons, ← hc, List.drop_left]
      have hlen : (w ++ [0]).length = w.length + 1 := by simp
      rw [List.take_left' hlen]
    · have hh : (head ++ (w0 ++ [0])).length = c + w0.length + 1 := by
        simp [hc]
        omega
      have := ih (c + w0.length + 1) (head ++ (w0 ++ [0])) hh p w h
      rwa [List.append_assoc, ← flatWide_cons] at this

theorem layout_getD_fst_succ (ws : List WStr) :
    ∀ c i, i + 1 < ws.length →
      ((layout c ws).getD (i + 1) (0, [])).1 =
        ((layout c ws).getD i (0, [])).1 +
          ((layout c ws).getD i (0, [])).2.length + 1 := by
  induction ws with
  | nil => intro c i h; simp at h
  | cons w0 ws ih =>
    intro c i h
    cases i with
    | zero =>
      cases ws with
      | nil => simp at h
      | cons w1 ws' => simp [layout]
    | succ j =>
      have h' : j + 1 < ws.length := by simpa using h
      simpa [layout] using ih (c + w0.length + 1) j h'

theorem marshalLoop_eq (conv : NStr → Option WStr) (cap : Nat)
    (args : List NStr) :
    ∀ st : MarshalState, st.buf.length = st.cursor →
      (∀ a ∈ args, (conv a).isSome = true) →
      st.cursor + argsWideSize conv args ≤ cap →
      args.foldl (marshalStep conv cap) st =
        ⟨st.buf ++ flatWide (args.map fun a => (conv a).getD []),
         st.cursor + argsWideSize conv args,
         st.ptrs ++
           (layout st.cursor (args.map fun a => (conv a).getD [])).map
             Prod.fst⟩ := by
  induction args with
  | nil =>
    intro st hlen hsome hfit
    simp [flatWide, argsWideSize, layout]
  | cons a args ih =>
    intro st hlen hsome hfit
    obtain ⟨w, hw⟩ : ∃ w, conv a = some w :=
      Option.isSome_iff_exists.mp (hsome a (List.mem_cons_self a args))
    have hsize : argsWideSize conv (a :: args) =
        (w.length + 1) + argsWideSize conv args := by
      simp [argsWideSize, hw]
    have havail : w.length < cap - st.cursor := by
      rw [hsize] at hfit
      omega
    have hstep : marshalStep conv cap st a =
        ⟨st.buf ++ w ++ [0], st.cursor + w.length + 1,
         st.ptrs ++ [st.cursor]⟩ := by
      unfold marshalStep
      rw [hw]
      simp [havail]
    rw [List.foldl_cons, hstep]
    rw [ih ⟨st.buf ++ w ++ [0], st.cursor + w.length + 1, st.ptrs ++ [st.cursor]⟩
      (by simp [hlen]; omega)
      (fun a' ha' => hsome a' (List.mem_cons_of_mem a ha'))
      (by rw [hsize] at hfit; simp; omega)]
    simp only [MarshalState.mk.injEq]
    refine ⟨?_, ?_, ?_⟩
    · simp [hw, flatWide_cons, List.append_assoc]
    · rw [hsize]
      omega
    · simp [hw, layout, List.append_assoc]

/-- **C3.** For every argument list whose converted wide lengths (each plus
one terminator) fit in the 4096-byte scratch buffer (`4096 / wsize` wide
characters), the marshaling loop of `machDxcCompile` produces exactly one
wide-string pointer per argument; each points to a null-terminated region
of the shared buffer holding exactly that argument's converted wide string,
the regions are consecutive and disjoint, and each converted string decodes
back to its original narrow source string. -/
theorem marshal_roundtrip (conv : NStr → Option WStr) (dec : WStr → NStr)
    (wsize : Nat) (args : List NStr)
    (hconv : ∀ a ∈ args, (conv a).isSome = true)
    (hfit : argsWideSize conv args ≤ 4096 / wsize)
    (hdec : ∀ a ∈ args, dec ((conv a).getD []) = a) :
    (marshalArgs conv (4096 / wsize) args).ptrs.length = args.length ∧
    ∀ i, i < args.length →
      ∃ w, conv (args.getD i []) = some w ∧
        (((marshalArgs conv (4096 / wsize) args).buf.drop
            ((marshalArgs conv (4096 / wsize) args).ptrs.getD i 0)).take
          (w.length + 1) = w ++ [0]) ∧
        dec w = args.getD i [] ∧
        (i + 1 < args.length →
          (marshalArgs conv (4096 / wsize) args).ptrs.getD (i + 1) 0 =
            (marshalArgs conv (4096 / wsize) args).ptrs.getD i 0 +
              w.length + 1) := by
  have hmb : marshalArgs conv (4096 / wsize) args =
      ⟨flatWide (args.map fun a => (conv a).getD []),
       argsWideSize conv args,
       (layout 0 (args.map fun a => (conv a).getD [])).map Prod.fst⟩ := by
    unfold marshalArgs
    rw [marshalLoop_eq conv (4096 / wsize) args ⟨[], 0, []⟩ rfl hconv
      (by simpa using hfit)]
    simp
  set ws : List WStr := args.map fun a => (conv a).getD [] with hws
  have hwslen : ws.length = args.length := by simp [hws]
  constructor
  · rw [hmb]
    simp [layout_length, hwslen]
  · intro i hi
    have hil : i < ws.length := by rw [hwslen]; exact hi
    have hmem : args.getD i [] ∈ args := getD_self_mem args i [] hi
    obtain ⟨w, hw⟩ : ∃ w, conv (args.getD i []) = some w :=
      Option.isSome_iff_exists.mp (hconv _ hmem)
    have hwsget : ws.getD i [] = w := by
      rw [getD_default_irrel ws i [] ((conv []).getD []) hil, hws,
        getD_map (fun a => (conv a).getD []) args [] i, hw]
      rfl
    have hpair2 : ((layout 0 ws).getD i (0, [])).2 = w := by
      have h1 : ((layout 0 ws).map Prod.snd).getD i
          (Prod.snd ((0, []) : Nat × WStr)) =
          Prod.snd ((layout 0 ws).getD i (0, [])) :=
        getD_map Prod.snd (layout 0 ws) (0, []) i
      rw [layout_map_snd ws 0] at h1
      rw [← h1]
      exact hwsget
    have hptr : ∀ j, (marshalArgs conv (4096 / wsize) args).ptrs.getD j 0 =
        ((layout 0 ws).getD j (0, [])).1 := by
      intro j
      rw [hmb]
      exact getD_map Prod.fst (layout 0 ws) (0, []) j
    refine ⟨w, hw, ?_, ?_, ?_⟩
    · have hreg := layout_region ws 0 [] rfl
        ((layout 0 ws).getD i (0, [])).1 ((layout 0 ws).getD i (0, [])).2
        (layout_getD_mem ws 0 i hil)
      rw [hpair2] at hreg
      rw [hmb] at hptr ⊢
      simp only [hptr]
      simpa using hreg
    · have := hdec _ hmem
      rwa [hw] at this
    · intro hi1
      have hil1 : i + 1 < ws.length := by rw [hwslen]; exact hi1
      rw [hptr (i + 1), hptr i, layout_getD_fst_succ ws 0 i hil1, hpair2]

/-- Witness for C3 at two concrete arguments under a shift-by-one
conversion with its inverse as decoder, `sizeof(wchar_t) = 4`. -/
theorem marshal_roundtrip_w :
    (marshalArgs (fun a => some (a.map (· + 1))) (4096 / 4)
      [[1, 2], [3]]).ptrs.length = 2 :=
  (marshal_roundtrip (fun a => some (a.map (· + 1))) (fun w => w.map (· - 1))
    4 [[1, 2], [3]]
    (fun _ _ => rfl)
    (by decide)
    (by
      intro a ha
      rcases List.mem_cons.mp ha with h | h
      · subst h; rfl
      · rcases List.mem_cons.mp h with h' | h'
        · subst h'; rfl
        · simp at h')).1

end MachDxc
